import Mathlib

/-!
Verification development for the deflect-geoip build pipeline.

The Go sources embedded here are internal/rir/parse.go (record parsing and
the IPv4 range-to-CIDR loop) and the build command (merge step, fetch retry
loop, CSV artifact serialization).  Machine integers (uint32) are modelled
as Nat with explicit reduction modulo 2^32 at every point where the Go
code can overflow.  The unbounded emission loop of ipv4RangeToCIDRs is
modelled with an explicit fuel parameter: a result of none means the loop
did not exit within the given fuel.
-/

namespace DeflectGeoip

/-- Modulus of the Go type uint32. -/
def two32 : Nat := 4294967296

/-- Mirrors rir.Record: a CIDR string and a country code (Go fields
Prefix and Country, here pfx and cc). -/
structure Record where
  pfx : String
  cc : String
deriving DecidableEq, Repr

/-- Splits a character list at every occurrence of sep, mirroring Go
strings.Split with a one-character separator.  The accumulator holds the
current field reversed. -/
def splitOnCharAux (sep : Char) : List Char → List Char → List (List Char)
  | [], acc => [acc.reverse]
  | c :: rest, acc =>
    if c = sep then acc.reverse :: splitOnCharAux sep rest []
    else splitOnCharAux sep rest (c :: acc)

/-- Field decomposition of a line, mirroring strings.Split(line, sep) for a
one-character separator. -/
def fieldsOf (sep : Char) (s : String) : List String :=
  (splitOnCharAux sep s.data []).map (fun l => String.mk l)

/-- Numeric value of a digit list (most significant first). -/
def digitsVal (l : List Char) : Nat :=
  l.foldl (fun a c => a * 10 + (c.toNat - 48)) 0

/-- Value of one dotted-quad field, mirroring the Go net.ParseIP octet
rules: nonempty, decimal digits only, no leading zero, at most 255. -/
def octetVal (s : String) : Option Nat :=
  let l := s.data
  if l.isEmpty then none
  else if ¬ l.all Char.isDigit then none
  else if l.length > 1 ∧ l.headD ' ' = '0' then none
  else if digitsVal l > 255 then none
  else some (digitsVal l)

/-- Models net.ParseIP(start) followed by To4() for a dotted-quad IPv4
literal, returning the address as a Nat below 2^32 (the composition
ipToUint32 of the four octets in parse.go). -/
def parseIPv4 (s : String) : Option Nat :=
  match (fieldsOf '.' s).map octetVal with
  | [some a, some b, some c, some d] =>
    some (a * 16777216 + b * 65536 + c * 256 + d)
  | _ => none

/-- Models strconv.Atoi: optional sign followed by decimal digits. -/
def atoi (s : String) : Option Int :=
  let digits : List Char → Option Nat := fun l =>
    if l.isEmpty ∨ ¬ l.all Char.isDigit then none else some (digitsVal l)
  match s.data with
  | '-' :: rest => (digits rest).map (fun n => -(n : Int))
  | '+' :: rest => (digits rest).map (fun n => (n : Int))
  | l => (digits l).map (fun n => (n : Int))

/-- Mirrors uint32ToIP in parse.go: dotted-quad rendering of the four
bytes of v. -/
def uint32ToIP (v : Nat) : String :=
  toString (v / 16777216 % 256) ++ "." ++ toString (v / 65536 % 256) ++ "." ++
    toString (v / 256 % 256) ++ "." ++ toString (v % 256)

/-- Mirrors the inner loop of ipv4RangeToCIDRs: the candidate block length
starts at 32 and is decremented while the block at cur is misaligned or
overruns endU; reaching 0 exits the loop with value 0.  Arithmetic on
cur + block - 1 is reduced modulo 2^32 exactly as the uint32 expression in
the Go code is. -/
def choosePlenAux (cur endU : Nat) : Nat → Nat
  | 0 => 0
  | p + 1 =>
    if cur % 2 ^ (32 - (p + 1)) ≠ 0 ∨ (cur + 2 ^ (32 - (p + 1)) - 1) % two32 > endU then
      choosePlenAux cur endU p
    else p + 1

/-- Block length selected by the inner loop, starting from 32. -/
def choosePlen (cur endU : Nat) : Nat := choosePlenAux cur endU 32

/-- Mirrors the outer emission loop of ipv4RangeToCIDRs, recording each
emitted block as (start address, plen).  The advance
cur += uint32(1) << (32 - plen) is modelled modulo 2^32, including the Go
semantics that a shift by 32 yields 0.  Fuel bounds the number of
iterations; none means the loop did not exit within the fuel. -/
def ipv4LoopB : Nat → Nat → Nat → Option (List (Nat × Nat))
  | 0, cur, endU => if cur ≤ endU then none else some []
  | f + 1, cur, endU =>
    if cur ≤ endU then
      (ipv4LoopB f ((cur + 2 ^ (32 - choosePlen cur endU) % two32) % two32) endU).map
        (fun l => (cur, choosePlen cur endU) :: l)
    else some []

/-- Numeric core of ipv4RangeToCIDRs: endU := startU + uint32(count) - 1
computed in uint32 arithmetic (adding 2^32 - 1 is subtracting one modulo
2^32), then the emission loop. -/
def ipv4RangeBlocks (fuel startU count : Nat) : Option (List (Nat × Nat)) :=
  ipv4LoopB fuel startU ((startU + count % two32 + (two32 - 1)) % two32)

/-- Rendering of one emitted block as a Record, mirroring the
fmt.Sprintf call in the loop body. -/
def recOfBlock (cc : String) (b : Nat × Nat) : Record :=
  ⟨uint32ToIP b.1 ++ "/" ++ toString b.2, cc⟩

/-- Mirrors ipv4RangeToCIDRs: nil (here some []) when the start address
does not parse as IPv4 or the count is not a positive integer; otherwise
the rendered blocks of the emission loop. -/
def ipv4RangeToCIDRs (fuel : Nat) (start value cc : String) : Option (List Record) :=
  match parseIPv4 start with
  | none => some []
  | some startU =>
    match atoi value with
    | none => some []
    | some c =>
      if c ≤ 0 then some []
      else (ipv4RangeBlocks fuel startU c.toNat).map (List.map (recOfBlock cc))

/-- Mirrors isCountryCode in parse.go: exactly two characters, each
between A and Z. -/
def isCountryCode (cc : String) : Bool :=
  cc.data.length == 2 && cc.data.all (fun r => 'A' ≤ r && r ≤ 'Z')

/-- Approximates the ipv6 branch guard of parse.go (net.ParseIP succeeds
and To4 returns nil): the literal contains a colon and is not in the
IPv4-mapped dotted form.  None of the verified claims exercises this
branch. -/
def looksIPv6 (s : String) : Bool :=
  s.data.contains ':' && !(s.data.contains '.')

/-- Mirrors ipv6ToCIDR in parse.go: the value field is a literal block
length between 0 and 128 and the record passes through undecomposed. -/
def ipv6ToCIDR (start value cc : String) : Option Record :=
  if looksIPv6 start then
    match atoi value with
    | none => none
    | some p =>
      if 0 ≤ p ∧ p ≤ 128 then some ⟨start ++ "/" ++ toString p, cc⟩ else none
  else none

/-- Uppercasing of a country-code field, mirroring strings.ToUpper on the
ASCII letters the later filter accepts. -/
def upperStr (s : String) : String := String.mk (s.data.map Char.toUpper)

/-- Records contributed by one input line, mirroring the loop body of
ParseDelegatedExtended: blank and comment lines, short lines, lines with a
filtered status and lines with an invalid or ZZ country code contribute
nothing; ipv4 lines go through the range loop, ipv6 lines through the
pass-through validator. -/
def lineRecords (fuel : Nat) (line : String) : Option (List Record) :=
  if line = "" then some []
  else if line.data.headD ' ' = '#' then some []
  else if (fieldsOf '|' line).length < 7 then some []
  else if (fieldsOf '|' line).getD 6 "" ≠ "allocated" ∧
      (fieldsOf '|' line).getD 6 "" ≠ "assigned" then some []
  else if isCountryCode (upperStr ((fieldsOf '|' line).getD 1 "")) = false ∨
      upperStr ((fieldsOf '|' line).getD 1 "") = "ZZ" then some []
  else if (fieldsOf '|' line).getD 2 "" = "ipv4" then
    ipv4RangeToCIDRs fuel ((fieldsOf '|' line).getD 3 "")
      ((fieldsOf '|' line).getD 4 "")
      (upperStr ((fieldsOf '|' line).getD 1 ""))
  else if (fieldsOf '|' line).getD 2 "" = "ipv6" then
    some (ipv6ToCIDR ((fieldsOf '|' line).getD 3 "")
      ((fieldsOf '|' line).getD 4 "")
      (upperStr ((fieldsOf '|' line).getD 1 ""))).toList
  else some []

/-- Mirrors ParseDelegatedExtended over the scanned lines of the input:
records of every line, concatenated in order. -/
def parseDelegatedExtended (fuel : Nat) : List String → Option (List Record)
  | [] => some []
  | l :: ls =>
    match lineRecords fuel l, parseDelegatedExtended fuel ls with
    | some r, some rest => some (r ++ rest)
    | _, _ => none

/-- A line the claims call excluded: fewer than seven fields, a status
other than allocated or assigned, or an uppercased country code that is ZZ
or not two letters A to Z. -/
def badLine (line : String) : Bool :=
  decide ((fieldsOf '|' line).length < 7) ||
  decide ((fieldsOf '|' line).getD 6 "" ≠ "allocated" ∧
    (fieldsOf '|' line).getD 6 "" ≠ "assigned") ||
  decide (isCountryCode (upperStr ((fieldsOf '|' line).getD 1 "")) = false ∨
    upperStr ((fieldsOf '|' line).getD 1 "") = "ZZ")

/-- Address interval covered by an emitted block (start, plen). -/
def addrIn (a : Nat) (b : Nat × Nat) : Prop :=
  b.1 ≤ a ∧ a ≤ b.1 + 2 ^ (32 - b.2) - 1

/-- Two blocks are disjoint when no address lies in both. -/
def blocksDisjoint (b b' : Nat × Nat) : Prop :=
  ∀ a, ¬ (addrIn a b ∧ addrIn a b')

/-- Mirrors the merge loop of build() in the main command: seen is the
accumulating map (association list), out the emitted records in order; a
record whose key maps to a different country aborts with the panic
message of the Go code. -/
def mergeLoop : List Record → List (String × String) → List Record →
    Except String (List Record)
  | [], _, out => .ok out
  | r :: rest, seen, out =>
    match seen.lookup r.pfx with
    | some prev =>
      if prev ≠ r.cc then .error ("country conflict for prefix " ++ r.pfx)
      else mergeLoop rest seen out
    | none => mergeLoop rest ((r.pfx, r.cc) :: seen) (out ++ [r])

/-- The merge step over the concatenated records of all sources. -/
def merge (recs : List Record) : Except String (List Record) :=
  mergeLoop recs [] []

/-- First-occurrence deduplication, the pure shape of the merge loop when
no conflict occurs. -/
def dedupAux : List Record → List (String × String) → List Record
  | [], _ => []
  | r :: rest, seen =>
    match seen.lookup r.pfx with
    | some _ => dedupAux rest seen
    | none => r :: dedupAux rest ((r.pfx, r.cc) :: seen)

/-- Deduplicated record sequence starting from an empty map. -/
def dedupF (recs : List Record) : List Record := dedupAux recs []

/-- No two records of the input give the same CIDR a different country. -/
def noConflict (recs : List Record) : Prop :=
  ∀ r ∈ recs, ∀ r' ∈ recs, r.pfx = r'.pfx → r.cc = r'.cc

instance (recs : List Record) : Decidable (noConflict recs) := by
  unfold noConflict
  infer_instance

/-- Decides whether nd is an initial segment of l. -/
def isPre : List Char → List Char → Bool
  | [], _ => true
  | _ :: _, [] => false
  | a :: as, b :: bs => a = b && isPre as bs

/-- Decides whether nd occurs inside hay. -/
def hasSub (nd : List Char) : List Char → Bool
  | [] => isPre nd []
  | c :: rest => isPre nd (c :: rest) || hasSub nd rest

/-- Substring test on strings. -/
def containsSub (hay nd : String) : Bool := hasSub nd.data hay.data

/-- Outcome of one fetch attempt, as the retry loop of fetchWithRetry
observes it: the connection fails, reading the body fails, the parser
rejects the downloaded body, or the body parses to records.  Each failing
outcome carries the error text that becomes lastErr. -/
inductive FetchOutcome where
  | connectFail (e : String)
  | readFail (e : String)
  | parseFail (e : String)
  | parsed (recs : List Record)
deriving DecidableEq

/-- Observable trace of one fetchWithRetry run: how many download
attempts were started, the backoff sleeps in seconds in order, and the
final outcome (records, or the panic message). -/
structure FetchTrace where
  downloads : Nat
  sleeps : List Nat
  result : Except String (List Record)
deriving Repr

/-- Mirrors the maxRetries constant of fetchWithRetry. -/
def maxRetries : Nat := 5

/-- Mirrors the attempt loop of fetchWithRetry: remaining counts the
attempts still allowed (maxRetries - attempt + 1), attempt the 1-based
attempt number, le the running lastErr.  Connect and read failures sleep
attempt * 10 seconds and continue; a parse failure continues without
sleeping; success returns the records; exhaustion produces the panic
message of the Go code. -/
def fetchAux (name : String) (outs : Nat → FetchOutcome) :
    Nat → Nat → String → FetchTrace
  | 0, _, le =>
    ⟨0, [], .error ("failed to fetch " ++ name ++ " after " ++
      toString maxRetries ++ " attempts: " ++ le)⟩
  | rem + 1, attempt, _ =>
    match outs attempt with
    | .connectFail e =>
      let t := fetchAux name outs rem (attempt + 1) e
      ⟨t.downloads + 1, attempt * 10 :: t.sleeps, t.result⟩
    | .readFail e =>
      let t := fetchAux name outs rem (attempt + 1) e
      ⟨t.downloads + 1, attempt * 10 :: t.sleeps, t.result⟩
    | .parseFail e =>
      let t := fetchAux name outs rem (attempt + 1) e
      ⟨t.downloads + 1, t.sleeps, t.result⟩
    | .parsed recs => ⟨1, [], .ok recs⟩

/-- Mirrors fetchWithRetry for a given schedule of attempt outcomes. -/
def fetchWithRetry (name : String) (outs : Nat → FetchOutcome) : FetchTrace :=
  fetchAux name outs maxRetries 1 ""

/-- True for the outcomes the claims call transport failures. -/
def isTransport : FetchOutcome → Bool
  | .connectFail _ => true
  | .readFail _ => true
  | _ => false

/-- Comparison used by the final sort in main(): the comparator of
sort.Slice is on the CIDR string. -/
def recLE (a b : Record) : Prop := a.pfx ≤ b.pfx

instance : DecidableRel recLE :=
  fun a b => inferInstanceAs (Decidable (a.pfx ≤ b.pfx))

instance : IsTotal Record recLE := ⟨fun a b => le_total a.pfx b.pfx⟩

instance : IsTrans Record recLE := ⟨fun _ _ _ h1 h2 => le_trans h1 h2⟩

/-- Strict version of recLE, used to show the sorted order is unique when
the CIDR strings are distinct. -/
def recLT (a b : Record) : Prop := a.pfx < b.pfx

instance : IsAntisymm Record recLT := ⟨fun _ _ h1 h2 => (lt_asymm h1 h2).elim⟩

/-- The sort of main(): records ordered by CIDR string. -/
def sortRecs (recs : List Record) : List Record := recs.insertionSort recLE

/-- Mirrors the uncompressed byte stream writeCSVGZ feeds to the gzip
writer: the header line, then one line per record, in order. -/
def csvBytes (recs : List Record) : String :=
  recs.foldl (fun acc r => acc ++ r.pfx ++ "," ++ r.cc ++ "\n") "prefix,country\n"

/-- The end-to-end example line of the claims. -/
def c1line : String := "arin|AU|ipv4|1.0.0.0|256|20110811|allocated|..."

/-- Attempt schedule with a parse failure first and a good body second. -/
def outsParseFailThenOk : Nat → FetchOutcome := fun n =>
  if n = 1 then .parseFail "bufio.Scanner: token too long"
  else .parsed [⟨"1.0.0.0/24", "AU"⟩]

/-- Attempt schedule with two transport failures followed by success. -/
def outsTwoFailThenOk : Nat → FetchOutcome := fun n =>
  if 3 ≤ n then .parsed [⟨"9.9.9.0/24", "US"⟩]
  else .connectFail "dial tcp: i/o timeout"

end DeflectGeoip

namespace DeflectGeoip

lemma choosePlen_eq_32 (cur endU : Nat) (h : cur ≤ endU) : choosePlen cur endU = 32 := by
  have hc : ¬ (cur % 2 ^ (32 - (31 + 1)) ≠ 0 ∨
      (cur + 2 ^ (32 - (31 + 1)) - 1) % two32 > endU) := by
    push_neg
    refine ⟨by norm_num [Nat.mod_one], ?_⟩
    norm_num
    exact le_trans (Nat.mod_le _ _) h
  show choosePlenAux cur endU (31 + 1) = 32
  rw [choosePlenAux, if_neg hc]

lemma ipv4LoopB_closed : ∀ fuel cur endU, endU + 1 ≤ two32 - 1 → endU + 1 - cur ≤ fuel →
    ipv4LoopB fuel cur endU =
      some ((List.range (endU + 1 - cur)).map (fun i => (cur + i, 32))) := by
  intro fuel
  induction fuel with
  | zero =>
    intro cur endU hE hf
    have hg : ¬ cur ≤ endU := by omega
    rw [show endU + 1 - cur = 0 by omega]
    simp [ipv4LoopB, hg]
  | succ f ih =>
    intro cur endU hE hf
    by_cases hg : cur ≤ endU
    · have hplen := choosePlen_eq_32 cur endU hg
      have h32 : two32 = 4294967296 := rfl
      have hcur1 : (cur + 2 ^ (32 - choosePlen cur endU) % two32) % two32 = cur + 1 := by
        rw [hplen]
        have h1 : (2 : Nat) ^ (32 - 32) % two32 = 1 := by norm_num [two32]
        rw [h1, Nat.mod_eq_of_lt (by omega)]
      rw [ipv4LoopB, if_pos hg, hcur1, ih (cur + 1) endU hE (by omega)]
      rw [show endU + 1 - cur = (endU - cur) + 1 by omega, List.range_succ_eq_map,
        show endU + 1 - (cur + 1) = endU - cur by omega]
      rw [hplen]
      have hfun : ((fun i => (cur + i, 32)) ∘ Nat.succ : Nat → Nat × Nat) =
          (fun i => (cur + 1 + i, 32)) := by
        funext i
        show (cur + Nat.succ i, 32) = (cur + 1 + i, 32)
        congr 1
        omega
      simp [hfun]
    · rw [show endU + 1 - cur = 0 by omega]
      simp [ipv4LoopB, hg]

lemma ipv4LoopB_maxEnd : ∀ fuel cur, ipv4LoopB fuel (cur % two32) (two32 - 1) = none := by
  intro fuel
  induction fuel with
  | zero =>
    intro cur
    have hlt : cur % two32 < two32 := Nat.mod_lt cur (by norm_num [two32])
    have hle : cur % two32 ≤ two32 - 1 := by omega
    simp [ipv4LoopB, hle]
  | succ f ih =>
    intro cur
    have hlt : cur % two32 < two32 := Nat.mod_lt cur (by norm_num [two32])
    have hle : cur % two32 ≤ two32 - 1 := by omega
    have hplen := choosePlen_eq_32 _ _ hle
    have hstep : (cur % two32 + 2 ^ (32 - choosePlen (cur % two32) (two32 - 1)) % two32)
        % two32 = (cur + 1) % two32 := by
      rw [hplen]
      have h1 : (2 : Nat) ^ (32 - 32) % two32 = 1 := by norm_num [two32]
      rw [h1, Nat.mod_add_mod]
    rw [ipv4LoopB, if_pos hle, hstep, ih (cur + 1)]
    rfl

end DeflectGeoip

namespace DeflectGeoip

lemma ipv4LoopB_exit (fuel cur endU : Nat) (h : ¬ cur ≤ endU) :
    ipv4LoopB fuel cur endU = some [] := by
  cases fuel with
  | zero => simp [ipv4LoopB, h]
  | succ f => simp [ipv4LoopB, h]

/-- C2 amended: for a non-wrapping range not ending at the maximal
address, the emitted blocks exactly cover the interval, are pairwise
disjoint, and each is aligned to its size. -/
theorem c2_thm : ∀ startU c, 0 < c → startU + c + 1 ≤ two32 →
    ∃ bs, ipv4RangeBlocks c startU c = some bs ∧
      (∀ a, (∃ b ∈ bs, addrIn a b) ↔ (startU ≤ a ∧ a ≤ startU + c - 1)) ∧
      bs.Pairwise blocksDisjoint ∧
      (∀ b ∈ bs, b.1 % 2 ^ (32 - b.2) = 0) := by
  intro startU c hc hle
  have h32 : two32 = 4294967296 := rfl
  have hcm : c % two32 = c := Nat.mod_eq_of_lt (by omega)
  have hend : (startU + c % two32 + (two32 - 1)) % two32 = startU + c - 1 := by
    rw [hcm]
    have hh : startU + c + (two32 - 1) = (startU + c - 1) + 1 * two32 := by omega
    rw [hh, Nat.add_mul_mod_self_right, Nat.mod_eq_of_lt (by omega)]
  have hclosed := ipv4LoopB_closed c startU (startU + c - 1) (by omega) (by omega)
  rw [show startU + c - 1 + 1 - startU = c by omega] at hclosed
  refine ⟨(List.range c).map (fun i => (startU + i, 32)), ?_, ?_, ?_, ?_⟩
  · unfold ipv4RangeBlocks
    rw [hend]
    exact hclosed
  · intro a
    constructor
    · rintro ⟨b, hb, hin⟩
      simp only [List.mem_map, List.mem_range] at hb
      obtain ⟨i, hi, rfl⟩ := hb
      simp only [addrIn] at hin
      norm_num at hin
      omega
    · rintro ⟨h1, h2⟩
      refine ⟨(startU + (a - startU), 32), ?_, ?_⟩
      · simp only [List.mem_map, List.mem_range]
        exact ⟨a - startU, by omega, rfl⟩
      · simp only [addrIn]
        norm_num
        omega
  · rw [List.pairwise_map]
    refine (List.pairwise_lt_range c).imp ?_
    intro i j hij
    intro a ha
    simp only [addrIn] at ha
    norm_num at ha
    omega
  · intro b hb
    simp only [List.mem_map, List.mem_range] at hb
    obtain ⟨i, hi, rfl⟩ := hb
    show (startU + i) % 2 ^ (32 - 32) = 0
    norm_num [Nat.mod_one]

/-- C3: the emission loop never exits when endU is the maximal uint32
value, and in particular the record 255.255.255.255 count 1 produces no
result for any amount of fuel. -/
theorem c3_thm : (∀ fuel cur, ipv4LoopB fuel (cur % two32) (two32 - 1) = none) ∧
    (∀ fuel, ipv4RangeToCIDRs fuel "255.255.255.255" "1" "US" = none) := by
  refine ⟨ipv4LoopB_maxEnd, fun fuel => ?_⟩
  have h1 : parseIPv4 "255.255.255.255" = some 4294967295 := by decide
  have h2 : atoi "1" = some 1 := by decide
  simp only [ipv4RangeToCIDRs, h1, h2]
  norm_num
  have hmax := ipv4LoopB_maxEnd fuel 4294967295
  rw [Nat.mod_eq_of_lt (by norm_num [two32])] at hmax
  unfold ipv4RangeBlocks
  rw [show ((4294967295 : Nat) + (1 : Nat) % two32 + (two32 - 1)) % two32 = two32 - 1
    from by norm_num [two32]]
  rw [hmax]

/-- C10: the count is reduced modulo 2^32 before the end address is
computed; 2^32 + 1 behaves as a one-address range; 2^32 with a nonzero
start makes the end precede the start so the record yields nothing. -/
theorem c10_thm :
    (∀ fuel startU c, ipv4RangeBlocks fuel startU c = ipv4RangeBlocks fuel startU (c % two32)) ∧
    ipv4RangeToCIDRs 1 "1.2.3.4" "4294967297" "AU" = some [⟨"1.2.3.4/32", "AU"⟩] ∧
    (∀ s, ipv4RangeBlocks 1 (s % (two32 - 1) + 1) two32 = some []) ∧
    ipv4RangeToCIDRs 1 "1.2.3.4" "4294967296" "AU" = some [] := by
  refine ⟨?_, by decide, ?_, by decide⟩
  · intro fuel startU c
    unfold ipv4RangeBlocks
    rw [Nat.mod_mod_of_dvd c dvd_rfl]
  · intro s
    have h32 : two32 = 4294967296 := rfl
    have hs : s % (two32 - 1) < two32 - 1 := Nat.mod_lt s (by norm_num [two32])
    have hend : ((s % (two32 - 1) + 1) + two32 % two32 + (two32 - 1)) % two32
        = s % (two32 - 1) := by
      rw [Nat.mod_self]
      have hh : (s % (two32 - 1) + 1) + 0 + (two32 - 1) = (s % (two32 - 1)) + 1 * two32 := by
        omega
      rw [hh, Nat.add_mul_mod_self_right, Nat.mod_eq_of_lt (by omega)]
    unfold ipv4RangeBlocks
    rw [hend]
    exact ipv4LoopB_exit 1 _ _ (by omega)


lemma lookupStr_cons (p k v : String) (seen : List (String × String)) :
    ((k, v) :: seen).lookup p = if p = k then some v else seen.lookup p := by
  rw [List.lookup_cons]
  by_cases h : p = k
  · simp [h]
  · simp [h, beq_false_of_ne h]

lemma noConflict_cons {r : Record} {rest : List Record} (h : noConflict (r :: rest)) :
    noConflict rest :=
  fun a ha b hb => h a (List.mem_cons_of_mem _ ha) b (List.mem_cons_of_mem _ hb)

lemma dedupAux_sublist : ∀ recs seen, List.Sublist (dedupAux recs seen) recs := by
  intro recs
  induction recs with
  | nil => intro seen; simp [dedupAux]
  | cons r rest ih =>
    intro seen
    cases h : seen.lookup r.pfx with
    | some prev =>
      simp only [dedupAux, h]
      exact (ih seen).cons r
    | none =>
      simp only [dedupAux, h]
      exact (ih _).cons₂ r

lemma dedupAux_nodupKeys : ∀ recs seen, ((dedupAux recs seen).map Record.pfx).Nodup ∧
    ∀ p ∈ (dedupAux recs seen).map Record.pfx, seen.lookup p = none := by
  intro recs
  induction recs with
  | nil => intro seen; simp [dedupAux]
  | cons r rest ih =>
    intro seen
    cases h : seen.lookup r.pfx with
    | some prev =>
      simp only [dedupAux, h]
      exact ih seen
    | none =>
      obtain ⟨ihn, ihl⟩ := ih ((r.pfx, r.cc) :: seen)
      simp only [dedupAux, h, List.map_cons, List.nodup_cons]
      refine ⟨⟨?_, ihn⟩, ?_⟩
      · intro hmem
        have hcon := ihl r.pfx hmem
        rw [lookupStr_cons, if_pos rfl] at hcon
        cases hcon
      · intro p hp
        rcases List.mem_cons.mp hp with rfl | hp'
        · exact h
        · have hcon := ihl p hp'
          rw [lookupStr_cons] at hcon
          by_cases hpq : p = r.pfx
          · rw [if_pos hpq] at hcon; cases hcon
          · rw [if_neg hpq] at hcon; exact hcon

lemma dedupAux_covers : ∀ recs seen (r : Record), r ∈ recs → seen.lookup r.pfx = none →
    ∃ r' ∈ dedupAux recs seen, r'.pfx = r.pfx := by
  intro recs
  induction recs with
  | nil => intro seen r h; simp at h
  | cons r0 rest ih =>
    intro seen r hmem hnone
    cases h : seen.lookup r0.pfx with
    | some prev =>
      simp only [dedupAux, h]
      rcases List.mem_cons.mp hmem with rfl | hmem'
      · rw [h] at hnone; cases hnone
      · exact ih seen r hmem' hnone
    | none =>
      simp only [dedupAux, h]
      rcases List.mem_cons.mp hmem with rfl | hmem'
      · exact ⟨r, List.mem_cons_self _ _, rfl⟩
      · by_cases hpq : r.pfx = r0.pfx
        · exact ⟨r0, List.mem_cons_self _ _, hpq.symm⟩
        · have hnone' : ((r0.pfx, r0.cc) :: seen).lookup r.pfx = none := by
            rw [lookupStr_cons, if_neg hpq]
            exact hnone
          obtain ⟨r', hr', hpfx⟩ := ih _ r hmem' hnone'
          exact ⟨r', List.mem_cons_of_mem _ hr', hpfx⟩

lemma mergeLoop_ok : ∀ recs seen out,
    (∀ r ∈ recs, ∀ c, seen.lookup r.pfx = some c → r.cc = c) →
    noConflict recs →
    mergeLoop recs seen out = .ok (out ++ dedupAux recs seen) := by
  intro recs
  induction recs with
  | nil =>
    intro seen out h1 h2
    simp [mergeLoop, dedupAux]
  | cons r rest ih =>
    intro seen out h1 h2
    cases h : seen.lookup r.pfx with
    | some prev =>
      have hcc : r.cc = prev := h1 r (List.mem_cons_self _ _) prev h
      simp only [mergeLoop, dedupAux, h]
      rw [if_neg (by simp [hcc])]
      exact ih seen out (fun r' hr' => h1 r' (List.mem_cons_of_mem _ hr'))
        (noConflict_cons h2)
    | none =>
      simp only [mergeLoop, dedupAux, h]
      rw [ih ((r.pfx, r.cc) :: seen) (out ++ [r]) ?_ (noConflict_cons h2)]
      · simp
      · intro r' hr' c hc
        rw [lookupStr_cons] at hc
        by_cases hpq : r'.pfx = r.pfx
        · rw [if_pos hpq] at hc
          have hcc : c = r.cc := (Option.some.inj hc).symm
          rw [hcc]
          exact h2 r' (List.mem_cons_of_mem _ hr') r (List.mem_cons_self _ _) hpq
        · rw [if_neg hpq] at hc
          exact h1 r' (List.mem_cons_of_mem _ hr') c hc

end DeflectGeoip

namespace DeflectGeoip

/-- C4 counterexample: the conflict message for CIDR 1.0.0.0/24 with
countries AU and US names the CIDR but contains neither country value. -/
theorem c4_cex :
    merge [⟨"1.0.0.0/24", "AU"⟩, ⟨"1.0.0.0/24", "US"⟩] =
      .error "country conflict for prefix 1.0.0.0/24" ∧
    containsSub "country conflict for prefix 1.0.0.0/24" "1.0.0.0/24" = true ∧
    containsSub "country conflict for prefix 1.0.0.0/24" "AU" = false ∧
    containsSub "country conflict for prefix 1.0.0.0/24" "US" = false :=
  ⟨rfl, by decide, by decide, by decide⟩

/-- C4 amended: a record whose CIDR is already mapped to a different
country aborts the merge fatally with a message naming that CIDR (the two
country values are not part of the message), as in the concrete example. -/
theorem c4_thm :
    (∀ rest seen out (r : Record) prev, seen.lookup r.pfx = some prev → prev ≠ r.cc →
      mergeLoop (r :: rest) seen out = .error ("country conflict for prefix " ++ r.pfx)) ∧
    merge [⟨"1.0.0.0/24", "AU"⟩, ⟨"1.0.0.0/24", "US"⟩] =
      .error "country conflict for prefix 1.0.0.0/24" := by
  constructor
  · intro rest seen out r prev hl hne
    simp [mergeLoop, hl, hne]
  · rfl

/-- C4 witness: a conflicting head record against a populated map. -/
theorem c4_w : mergeLoop [⟨"1.0.0.0/24", "US"⟩] [("1.0.0.0/24", "AU")] [] =
    .error ("country conflict for prefix " ++ "1.0.0.0/24") :=
  c4_thm.1 [] [("1.0.0.0/24", "AU")] [] ⟨"1.0.0.0/24", "US"⟩ "AU" rfl (by decide)

/-- C5: with no conflicts the merge returns the first-occurrence
subsequence: each distinct CIDR exactly once, with the country of its
occurrences, and two identical records collapse to one entry. -/
theorem c5_thm :
    (∀ recs, noConflict recs →
      merge recs = .ok (dedupF recs) ∧
      List.Sublist (dedupF recs) recs ∧
      ((dedupF recs).map Record.pfx).Nodup ∧
      (∀ r ∈ recs, ∃ r' ∈ dedupF recs, r'.pfx = r.pfx ∧ r'.cc = r.cc)) ∧
    merge [⟨"1.0.0.0/24", "AU"⟩, ⟨"1.0.0.0/24", "AU"⟩] = .ok [⟨"1.0.0.0/24", "AU"⟩] := by
  constructor
  · intro recs hnc
    refine ⟨?_, dedupAux_sublist recs [], (dedupAux_nodupKeys recs []).1, ?_⟩
    · have h := mergeLoop_ok recs [] [] (by simp) hnc
      simpa [merge, dedupF] using h
    · intro r hr
      obtain ⟨r', hr', hpfx⟩ := dedupAux_covers recs [] r hr (by simp)
      have hrmem : r' ∈ recs := (dedupAux_sublist recs []).subset hr'
      exact ⟨r', hr', hpfx, hnc r' hrmem r hr hpfx⟩
  · rfl

/-- C5 witness: the duplicate-record example instantiated. -/
theorem c5_w :
    merge [⟨"1.0.0.0/24", "AU"⟩, ⟨"1.0.0.0/24", "AU"⟩] =
      .ok (dedupF [⟨"1.0.0.0/24", "AU"⟩, ⟨"1.0.0.0/24", "AU"⟩]) ∧
    List.Sublist (dedupF [⟨"1.0.0.0/24", "AU"⟩, ⟨"1.0.0.0/24", "AU"⟩])
      [⟨"1.0.0.0/24", "AU"⟩, ⟨"1.0.0.0/24", "AU"⟩] ∧
    ((dedupF [⟨"1.0.0.0/24", "AU"⟩, ⟨"1.0.0.0/24", "AU"⟩]).map Record.pfx).Nodup ∧
    (∀ r ∈ ([⟨"1.0.0.0/24", "AU"⟩, ⟨"1.0.0.0/24", "AU"⟩] : List Record),
      ∃ r' ∈ dedupF [⟨"1.0.0.0/24", "AU"⟩, ⟨"1.0.0.0/24", "AU"⟩],
        r'.pfx = r.pfx ∧ r'.cc = r.cc) :=
  c5_thm.1 [⟨"1.0.0.0/24", "AU"⟩, ⟨"1.0.0.0/24", "AU"⟩] (by decide)

end DeflectGeoip

namespace DeflectGeoip

set_option maxHeartbeats 2000000 in
set_option maxRecDepth 4000 in
/-- C1: the example line yields 256 one-address records headed by
1.0.0.0/32, not the single record 1.0.0.0/24 stated by the claim; in
particular adjacent emitted blocks are mergeable, so the decomposition is
not minimal. -/
theorem c1_eval : ((parseDelegatedExtended 256 [c1line]).getD []).length = 256 ∧
    ((parseDelegatedExtended 256 [c1line]).getD []).head? = some ⟨"1.0.0.0/32", "AU"⟩ ∧
    parseDelegatedExtended 256 [c1line] ≠ some [⟨"1.0.0.0/24", "AU"⟩] := by decide

/-- C2 counterexample: this record has a start that parses as IPv4 and a
positive count, yet the emitted block list is empty, so its union does
not cover the nonempty interval of the claim. -/
theorem c2_cex : ipv4RangeToCIDRs 1 "255.255.255.0" "512" "US" = some [] ∧
    parseIPv4 "255.255.255.0" = some 4294967040 ∧ atoi "512" = some 512 := by decide

/-- C2 witness at start 8, count 4. -/
theorem c2_w : ∃ bs, ipv4RangeBlocks 4 8 4 = some bs ∧
    (∀ a, (∃ b ∈ bs, addrIn a b) ↔ (8 ≤ a ∧ a ≤ 8 + 4 - 1)) ∧
    bs.Pairwise blocksDisjoint ∧
    (∀ b ∈ bs, b.1 % 2 ^ (32 - b.2) = 0) :=
  c2_thm 8 4 (by norm_num) (by norm_num [two32])

end DeflectGeoip

namespace DeflectGeoip

lemma fetchAux_parsed (name : String) (outs : Nat → FetchOutcome) (rem attempt : Nat)
    (le : String) (recs : List Record) (h : outs attempt = .parsed recs) :
    fetchAux name outs (rem + 1) attempt le = ⟨1, [], .ok recs⟩ := by
  simp [fetchAux, h]

lemma fetchAux_parseFail (name : String) (outs : Nat → FetchOutcome) (rem attempt : Nat)
    (le e : String) (h : outs attempt = .parseFail e) :
    fetchAux name outs (rem + 1) attempt le =
      ⟨(fetchAux name outs rem (attempt + 1) e).downloads + 1,
        (fetchAux name outs rem (attempt + 1) e).sleeps,
        (fetchAux name outs rem (attempt + 1) e).result⟩ := by
  simp [fetchAux, h]

lemma fetchAux_downloads_le (name : String) (outs : Nat → FetchOutcome) :
    ∀ rem attempt le, (fetchAux name outs rem attempt le).downloads ≤ rem := by
  intro rem
  induction rem with
  | zero => intro attempt le; simp [fetchAux]
  | succ r ih =>
    intro attempt le
    cases h : outs attempt with
    | connectFail e =>
      simp only [fetchAux, h]
      exact Nat.succ_le_succ (ih (attempt + 1) e)
    | readFail e =>
      simp only [fetchAux, h]
      exact Nat.succ_le_succ (ih (attempt + 1) e)
    | parseFail e =>
      simp only [fetchAux, h]
      exact Nat.succ_le_succ (ih (attempt + 1) e)
    | parsed recs =>
      simp [fetchAux, h]

lemma range_map_backoff (attempt k : Nat) :
    (List.range (k + 1)).map (fun i => (attempt + i) * 10) =
      attempt * 10 :: (List.range k).map (fun i => (attempt + 1 + i) * 10) := by
  have hfun : ((fun i => (attempt + i) * 10) ∘ Nat.succ : Nat → Nat) =
      fun i => (attempt + 1 + i) * 10 := by
    funext i
    show (attempt + Nat.succ i) * 10 = (attempt + 1 + i) * 10
    congr 1
    omega
  rw [List.range_succ_eq_map, List.map_cons, List.map_map, hfun]
  norm_num

lemma fetchAux_succeeds (name : String) (outs : Nat → FetchOutcome) :
    ∀ k rem attempt le recs, k < rem →
      (∀ i, i < k → isTransport (outs (attempt + i)) = true) →
      outs (attempt + k) = .parsed recs →
      fetchAux name outs rem attempt le =
        ⟨k + 1, (List.range k).map (fun i => (attempt + i) * 10), .ok recs⟩ := by
  intro k
  induction k with
  | zero =>
    intro rem attempt le recs hrem hfail hok
    obtain ⟨r, rfl⟩ : ∃ r, rem = r + 1 := ⟨rem - 1, by omega⟩
    rw [fetchAux_parsed name outs r attempt le recs (by simpa using hok)]
    simp
  | succ k ih =>
    intro rem attempt le recs hrem hfail hok
    obtain ⟨r, rfl⟩ : ∃ r, rem = r + 1 := ⟨rem - 1, by omega⟩
    have h0 : isTransport (outs attempt) = true := by
      simpa using hfail 0 (by omega)
    have hshift : ∀ i, i < k → isTransport (outs (attempt + 1 + i)) = true := by
      intro i hi
      have h1 := hfail (i + 1) (by omega)
      rw [show attempt + (i + 1) = attempt + 1 + i by omega] at h1
      exact h1
    have hok' : outs (attempt + 1 + k) = .parsed recs := by
      rw [show attempt + 1 + k = attempt + (k + 1) by omega]
      exact hok
    rw [range_map_backoff]
    cases h : outs attempt with
    | connectFail e =>
      have hrec := ih r (attempt + 1) e recs (by omega) hshift hok'
      simp only [fetchAux, h]
      rw [hrec]
    | readFail e =>
      have hrec := ih r (attempt + 1) e recs (by omega) hshift hok'
      simp only [fetchAux, h]
      rw [hrec]
    | parseFail e =>
      rw [h] at h0
      simp [isTransport] at h0
    | parsed recs2 =>
      rw [h] at h0
      simp [isTransport] at h0

lemma fetchAux_allfail (name : String) (outs : Nat → FetchOutcome) :
    ∀ rem attempt le, (∀ i, i < rem → isTransport (outs (attempt + i)) = true) →
      ∃ e, fetchAux name outs rem attempt le =
        ⟨rem, (List.range rem).map (fun i => (attempt + i) * 10),
          .error ("failed to fetch " ++ name ++ " after " ++ toString maxRetries ++
            " attempts: " ++ e)⟩ := by
  intro rem
  induction rem with
  | zero =>
    intro attempt le hfail
    exact ⟨le, by simp [fetchAux]⟩
  | succ r ih =>
    intro attempt le hfail
    have h0 : isTransport (outs attempt) = true := by simpa using hfail 0 (by omega)
    have hshift : ∀ i, i < r → isTransport (outs (attempt + 1 + i)) = true := by
      intro i hi
      have h1 := hfail (i + 1) (by omega)
      rw [show attempt + (i + 1) = attempt + 1 + i by omega] at h1
      exact h1
    cases h : outs attempt with
    | connectFail e =>
      obtain ⟨e', he⟩ := ih (attempt + 1) e hshift
      refine ⟨e', ?_⟩
      rw [range_map_backoff]
      simp only [fetchAux, h]
      rw [he]
    | readFail e =>
      obtain ⟨e', he⟩ := ih (attempt + 1) e hshift
      refine ⟨e', ?_⟩
      rw [range_map_backoff]
      simp only [fetchAux, h]
      rw [he]
    | parseFail e =>
      rw [h] at h0
      simp [isTransport] at h0
    | parsed recs =>
      rw [h] at h0
      simp [isTransport] at h0

lemma fetchAux_two (name : String) (outs : Nat → FetchOutcome) :
    ∀ rem le e recs, outs 1 = .parseFail e → outs 2 = .parsed recs →
    fetchAux name outs (rem + 1 + 1) 1 le = ⟨2, [], .ok recs⟩ := by
  intro rem le e recs h1 h2
  rw [fetchAux_parseFail name outs (rem + 1) 1 le e h1,
    fetchAux_parsed name outs rem 2 e recs h2]

end DeflectGeoip

namespace DeflectGeoip

/-- C6 counterexample: after the parse failure of attempt 1 the fetcher
starts a second download attempt and returns the records of its body,
rather than aborting for that source. -/
theorem c6_cex : fetchWithRetry "arin" outsParseFailThenOk =
      ⟨2, [], .ok [⟨"1.0.0.0/24", "AU"⟩]⟩ ∧
    outsParseFailThenOk 1 = .parseFail "bufio.Scanner: token too long" ∧
    (fetchWithRetry "arin" outsParseFailThenOk).downloads ≠ 1 :=
  ⟨rfl, rfl, by decide⟩

/-- C6 amended: a parse failure on a fully-downloaded body is retried
like a transport failure, but with no backoff sleep before the next
download attempt; a success on the next attempt returns its records. -/
theorem c6_thm : ∀ (name : String) (outs : Nat → FetchOutcome) e recs,
    outs 1 = .parseFail e → outs 2 = .parsed recs →
    fetchWithRetry name outs = ⟨2, [], .ok recs⟩ := by
  intro name outs e recs h1 h2
  show fetchAux name outs (3 + 1 + 1) 1 "" = _
  exact fetchAux_two name outs 3 "" e recs h1 h2

/-- C6 witness. -/
theorem c6_w : fetchWithRetry "ripe" outsParseFailThenOk =
    ⟨2, [], .ok [⟨"1.0.0.0/24", "AU"⟩]⟩ :=
  c6_thm "ripe" outsParseFailThenOk "bufio.Scanner: token too long"
    [⟨"1.0.0.0/24", "AU"⟩] rfl rfl

/-- C7: at most five download attempts are started; k transport failures
followed by a success return the records of the successful attempt with
backoff sleeps 10, 20, ..., k*10 seconds; five transport failures produce
the fatal message naming the source and the attempt count. -/
theorem c7_thm : ∀ (name : String) (outs : Nat → FetchOutcome),
    (fetchWithRetry name outs).downloads ≤ 5 ∧
    (∀ k recs, k < 5 → (∀ i, i < k → isTransport (outs (1 + i)) = true) →
      outs (1 + k) = .parsed recs →
      fetchWithRetry name outs =
        ⟨k + 1, (List.range k).map (fun i => (1 + i) * 10), .ok recs⟩) ∧
    ((∀ i, i < 5 → isTransport (outs (1 + i)) = true) →
      ∃ e, fetchWithRetry name outs =
        ⟨5, (List.range 5).map (fun i => (1 + i) * 10),
          .error ("failed to fetch " ++ name ++ " after " ++ toString maxRetries ++
            " attempts: " ++ e)⟩) := by
  intro name outs
  have hdef : fetchWithRetry name outs = fetchAux name outs 5 1 "" := rfl
  refine ⟨?_, ?_, ?_⟩
  · rw [hdef]
    exact fetchAux_downloads_le name outs 5 1 ""
  · intro k recs hk hfail hok
    rw [hdef]
    exact fetchAux_succeeds name outs k 5 1 "" recs hk hfail hok
  · intro hfail
    rw [hdef]
    exact fetchAux_allfail name outs 5 1 "" hfail

/-- C7 witness: two transport failures then success. -/
theorem c7_w : fetchWithRetry "arin" outsTwoFailThenOk =
    ⟨2 + 1, (List.range 2).map (fun i => (1 + i) * 10), .ok [⟨"9.9.9.0/24", "US"⟩]⟩ :=
  (c7_thm "arin" outsTwoFailThenOk).2.1 2 [⟨"9.9.9.0/24", "US"⟩] (by norm_num)
    (fun i hi => by
      have h3 : ¬ 3 ≤ 1 + i := by omega
      simp [outsTwoFailThenOk, h3, isTransport])
    rfl

end DeflectGeoip

namespace DeflectGeoip

lemma lineRecords_badLine : ∀ fuel line, badLine line = true → lineRecords fuel line = some [] := by
  intro fuel line h
  unfold badLine at h
  simp only [Bool.or_eq_true, decide_eq_true_eq] at h
  unfold lineRecords
  by_cases h0 : line = ""
  · rw [if_pos h0]
  · rw [if_neg h0]
    by_cases h1 : line.data.headD ' ' = '#'
    · rw [if_pos h1]
    · rw [if_neg h1]
      by_cases hlen : (fieldsOf '|' line).length < 7
      · rw [if_pos hlen]
      · rw [if_neg hlen]
        by_cases hst : (fieldsOf '|' line).getD 6 "" ≠ "allocated" ∧
            (fieldsOf '|' line).getD 6 "" ≠ "assigned"
        · rw [if_pos hst]
        · rw [if_neg hst]
          have hcc : isCountryCode (upperStr ((fieldsOf '|' line).getD 1 "")) = false ∨
              upperStr ((fieldsOf '|' line).getD 1 "") = "ZZ" := by
            rcases h with (h | h) | h
            · exact absurd h hlen
            · exact absurd h hst
            · exact h
          rw [if_pos hcc]

/-- C8: every line with a filtered status, an invalid or ZZ country code,
or fewer than seven fields contributes nothing, and dropping all such
lines from the input leaves the parse result unchanged. -/
theorem c8_thm :
    (∀ fuel line, badLine line = true → lineRecords fuel line = some []) ∧
    (∀ fuel lines, parseDelegatedExtended fuel lines =
      parseDelegatedExtended fuel (lines.filter (fun l => !badLine l))) := by
  refine ⟨lineRecords_badLine, ?_⟩
  intro fuel lines
  induction lines with
  | nil => rfl
  | cons l ls ih =>
    by_cases hb : badLine l = true
    · have hrec := lineRecords_badLine fuel l hb
      simp only [List.filter_cons, hb]
      rw [parseDelegatedExtended, hrec, ih]
      norm_num
      cases hp : parseDelegatedExtended fuel (ls.filter (fun l => !badLine l)) <;> simp [hp]
    · have hbf : badLine l = false := by
        cases hq : badLine l
        · rfl
        · exact absurd hq hb
      simp only [List.filter_cons, hbf, Bool.not_false, if_true]
      rw [parseDelegatedExtended, parseDelegatedExtended, ih]

/-- C8 witness: the three excluded example lines of the claim. -/
theorem c8_w :
    lineRecords 1 "arin|AU|ipv4|1.0.0.0|256|20110811|available" = some [] ∧
    lineRecords 1 "apnic|zz|ipv4|1.0.0.0|256|20110811|allocated" = some [] ∧
    lineRecords 1 "ripe|US|ipv4" = some [] :=
  ⟨c8_thm.1 1 "arin|AU|ipv4|1.0.0.0|256|20110811|available" (by decide),
   c8_thm.1 1 "apnic|zz|ipv4|1.0.0.0|256|20110811|allocated" (by decide),
   c8_thm.1 1 "ripe|US|ipv4" (by decide)⟩

end DeflectGeoip

namespace DeflectGeoip

lemma sorted_strict_of_nodup : ∀ l : List Record, l.Sorted recLE →
    (l.map Record.pfx).Nodup → l.Sorted recLT := by
  intro l hs hn
  have hpw : l.Pairwise (fun a b : Record => a.pfx ≠ b.pfx) :=
    List.pairwise_map.mp hn
  exact (hs.and hpw).imp (fun hab => lt_of_le_of_ne hab.1 hab.2)

/-- C9: for any deterministic compression and digest functions, the
sorted record sequence, the CSV bytes, the compressed bytes and the
digest are identical for any two merge outputs that are permutations of
each other with distinct CIDR strings: the artifact does not depend on
the order sources were fetched or iterated. -/
theorem c9_thm : ∀ (gz sha : String → String) (l1 l2 : List Record),
    l1.Perm l2 → (l1.map Record.pfx).Nodup →
    sortRecs l1 = sortRecs l2 ∧
    csvBytes (sortRecs l1) = csvBytes (sortRecs l2) ∧
    gz (csvBytes (sortRecs l1)) = gz (csvBytes (sortRecs l2)) ∧
    sha (gz (csvBytes (sortRecs l1))) = sha (gz (csvBytes (sortRecs l2))) := by
  intro gz sha l1 l2 hperm hnd
  have hs1 : (sortRecs l1).Sorted recLE := List.sorted_insertionSort recLE l1
  have hs2 : (sortRecs l2).Sorted recLE := List.sorted_insertionSort recLE l2
  have hp1 : (sortRecs l1).Perm l1 := List.perm_insertionSort recLE l1
  have hp2 : (sortRecs l2).Perm l2 := List.perm_insertionSort recLE l2
  have hperm12 : (sortRecs l1).Perm (sortRecs l2) := hp1.trans (hperm.trans hp2.symm)
  have hnd1 : ((sortRecs l1).map Record.pfx).Nodup :=
    ((hp1.map Record.pfx).nodup_iff).mpr hnd
  have hnd2 : ((sortRecs l2).map Record.pfx).Nodup := by
    have hnd' : (l2.map Record.pfx).Nodup := ((hperm.map Record.pfx).nodup_iff).mp hnd
    exact ((hp2.map Record.pfx).nodup_iff).mpr hnd'
  have heq : sortRecs l1 = sortRecs l2 :=
    List.eq_of_perm_of_sorted hperm12 (sorted_strict_of_nodup _ hs1 hnd1)
      (sorted_strict_of_nodup _ hs2 hnd2)
  exact ⟨heq, by rw [heq], by rw [heq], by rw [heq]⟩

/-- C9 witness: two fetch orders of the same two records. -/
theorem c9_w :
    sortRecs [⟨"1.0.0.0/24", "AU"⟩, ⟨"2.0.0.0/24", "US"⟩] =
      sortRecs [⟨"2.0.0.0/24", "US"⟩, ⟨"1.0.0.0/24", "AU"⟩] ∧
    csvBytes (sortRecs [⟨"1.0.0.0/24", "AU"⟩, ⟨"2.0.0.0/24", "US"⟩]) =
      csvBytes (sortRecs [⟨"2.0.0.0/24", "US"⟩, ⟨"1.0.0.0/24", "AU"⟩]) ∧
    (fun s => s ++ ".gz") (csvBytes (sortRecs [⟨"1.0.0.0/24", "AU"⟩, ⟨"2.0.0.0/24", "US"⟩])) =
      (fun s => s ++ ".gz") (csvBytes (sortRecs [⟨"2.0.0.0/24", "US"⟩, ⟨"1.0.0.0/24", "AU"⟩])) ∧
    (fun s => s ++ ".sha") ((fun s => s ++ ".gz")
        (csvBytes (sortRecs [⟨"1.0.0.0/24", "AU"⟩, ⟨"2.0.0.0/24", "US"⟩]))) =
      (fun s => s ++ ".sha") ((fun s => s ++ ".gz")
        (csvBytes (sortRecs [⟨"2.0.0.0/24", "US"⟩, ⟨"1.0.0.0/24", "AU"⟩]))) :=
  c9_thm (fun s => s ++ ".gz") (fun s => s ++ ".sha")
    [⟨"1.0.0.0/24", "AU"⟩, ⟨"2.0.0.0/24", "US"⟩]
    [⟨"2.0.0.0/24", "US"⟩, ⟨"1.0.0.0/24", "AU"⟩] (by decide) (by decide)

end DeflectGeoip
